import Mathlib

/-!
# Verification of the outdoor-temperature enrichment pipeline

Shallow embedding of the core logic of `src/main.ts` (a Google Apps Script
temperature/humidity chart updater) and proofs about it.

Modelling conventions:

* An instant (JS `Date`) is its `getTime()` value: milliseconds since the
  Unix epoch, as `Int`.  The deployment timezone (JST) has a whole-hour UTC
  offset and no daylight-saving time, so `d.setMinutes(0, 0, 0)` is exactly
  flooring to the enclosing hour boundary in epoch milliseconds, and
  `d.setDate(d.getDate() - 2)` subtracts exactly 48 hours.
* Temperatures (JS `number` values carried around, compared for equality and
  stored) are modelled as `ℚ`; `null` becomes `Option.none`.
* The persistent spreadsheet cache (sheet `外気温データ`) is the list of its
  data rows (header row dropped), each row `(timestamp, stationId, 気温)`.
* A JS `Map<number, number>` built by repeated `set` is modelled as an
  association list where `set` overwrites in place (preserving insertion
  order) and appends fresh keys at the end, exactly like the JS `Map`.
* External HTTP calls are modelled by explicit function parameters
  (`fetch`, `upstream`): the code under test is deterministic given the
  behaviour of the outside world during the run.
-/

namespace TempUpdater

/-- One hour in milliseconds. -/
def hourMs : Int := 3600000

/-- Two days in milliseconds: `twoDaysAgo.setDate(twoDaysAgo.getDate() - 2)`. -/
def twoDaysMs : Int := 172800000

/-- Model of `roundedTime.setMinutes(0, 0, 0)`: floor an instant to the top of its
hour (minutes, seconds, milliseconds zeroed). -/
def hourFloor (t : Int) : Int := t - t % hourMs

/-- Model of `interface TemperatureData { timestamp: Date; temperature: number | null }`. -/
structure TemperatureData where
  timestamp : Int
  temperature : Option ℚ
deriving DecidableEq, Repr

/-- One data row of the persistent outdoor-temperature sheet:
`[タイムスタンプ, 観測所ID, 気温]`. -/
structure OutdoorTempRow where
  timestamp : Int
  stationId : String
  temperature : ℚ
deriving DecidableEq, Repr

/-- JS `Map.set`: overwrite an existing key in place, else append. -/
def mapSet : List (Int × ℚ) → Int → ℚ → List (Int × ℚ)
  | [], k, v => [(k, v)]
  | p :: ps, k, v => if p.1 = k then (k, v) :: ps else p :: mapSet ps k v

/-- JS `Map.get` (with `has` being `isSome` of the result). -/
def mapGet : List (Int × ℚ) → Int → Option ℚ
  | [], _ => none
  | p :: ps, k => if p.1 = k then some p.2 else mapGet ps k

/-- Body of the row loop of `loadOutdoorTemperatureData`: keep the row when
station and (raw-timestamp) window match, keyed by the hour-floored
timestamp. -/
def loadStep (stationId : String) (startDate endDate : Int)
    (m : List (Int × ℚ)) (row : OutdoorTempRow) : List (Int × ℚ) :=
  if row.stationId = stationId ∧ startDate ≤ row.timestamp ∧ row.timestamp ≤ endDate then
    mapSet m (hourFloor row.timestamp) row.temperature
  else m

/-- Model of `loadOutdoorTemperatureData(stationId, startDate, endDate)`: scan the
whole sheet and build the hour-keyed lookup map. -/
def loadOutdoorTemperatureData (stationId : String) (startDate endDate : Int)
    (store : List OutdoorTempRow) : List (Int × ℚ) :=
  store.foldl (loadStep stationId startDate endDate) []

/-- The rows of one load scan that land on key `k`: station matches, raw
timestamp inside the (inclusive) window, hour-floored timestamp equals `k`.
Used to state what a range query returns. -/
def rowMatches (stationId : String) (startDate endDate : Int) (k : Int)
    (r : OutdoorTempRow) : Bool :=
  decide (r.stationId = stationId ∧ startDate ≤ r.timestamp ∧ r.timestamp ≤ endDate ∧
    hourFloor r.timestamp = k)

/-- Model of `saveOutdoorTemperatureData(stationId, data)`: append one row per item
with a non-null temperature, carrying the item's own timestamp unchanged. -/
def saveOutdoorTemperatureData (stationId : String) (data : List TemperatureData)
    (store : List OutdoorTempRow) : List OutdoorTempRow :=
  store ++ data.filterMap (fun item =>
    item.temperature.map (fun v => ⟨item.timestamp, stationId, v⟩))

/-- Model of `getTemperatureHistory(stationId, timestamps)`: fetch each timestamp's
hour (rounded down) and record the result under the original timestamp.
The external per-hour API call is the `fetch` parameter. -/
def getTemperatureHistory (fetch : String → Int → Option ℚ) (stationId : String)
    (timestamps : List Int) : List TemperatureData :=
  timestamps.map (fun t => ⟨t, fetch stationId (hourFloor t)⟩)

/-- The batch of rows appended by one run (the `filterMap` of
`saveOutdoorTemperatureData` applied to the fetched gap data). -/
def saveBatch (fetch : String → Int → Option ℚ) (st : String) (ms : List Int) :
    List OutdoorTempRow :=
  (getTemperatureHistory fetch st ms).filterMap
    (fun item => item.temperature.map
      (fun v => (⟨item.timestamp, st, v⟩ : OutdoorTempRow)))

/-- Model of `Math.min(...timestamps.map(t => t.getTime()))` (list known non-empty
at the use site). -/
def listMin : List Int → Int
  | [] => 0
  | t :: ts => ts.foldl min t

/-- Model of `Math.max(...timestamps.map(t => t.getTime()))`. -/
def listMax : List Int → Int
  | [] => 0
  | t :: ts => ts.foldl max t

/-- The cache lookup table built at the start of
`getOutdoorTemperatureWithCache`. -/
def enrichCached (stationId : String) (timestamps : List Int)
    (store : List OutdoorTempRow) : List (Int × ℚ) :=
  loadOutdoorTemperatureData stationId (listMin timestamps) (listMax timestamps) store

/-- One iteration of the per-timestamp probe loop: the pushed result entry
(the cached value on a hit, `null` on either kind of miss). -/
def enrichProbe (cachedData : List (Int × ℚ)) (t : Int) : TemperatureData :=
  ⟨t, mapGet cachedData (hourFloor t)⟩

/-- The `missingData` array: cache misses inside the trailing-2-days
window (`timestamp >= twoDaysAgo`, inclusive). -/
def enrichMissing (cachedData : List (Int × ℚ)) (twoDaysAgo : Int)
    (timestamps : List Int) : List Int :=
  timestamps.filter (fun t =>
    (mapGet cachedData (hourFloor t)).isNone && decide (twoDaysAgo ≤ t))

/-- Model of `results[i].temperature = v` (in-place mutation of one array slot). -/
def updateTempAt : List TemperatureData → Nat → Option ℚ → List TemperatureData
  | [], _, _ => []
  | r :: rs, 0, v => ⟨r.timestamp, v⟩ :: rs
  | r :: rs, n + 1, v => r :: updateTempAt rs n v

/-- JS `Array.findIndex`: index of the first element satisfying `p`
(`none` models the `-1` "not found" answer, which the caller tests with
`resultIndex >= 0`). -/
def findIndex {α : Type} (p : α → Bool) : List α → Option Nat
  | [] => none
  | r :: rs => if p r then some 0 else (findIndex p rs).map (· + 1)

/-- The merge loop of `getOutdoorTemperatureWithCache`: for each fetched
item, `findIndex` the first result entry with the exact same timestamp and
overwrite its temperature. -/
def mergeFetched (fetchedData : List TemperatureData)
    (results : List TemperatureData) : List TemperatureData :=
  fetchedData.foldl (fun res f =>
    match findIndex (fun r => decide (r.timestamp = f.timestamp)) res with
    | some i => updateTempAt res i f.temperature
    | none => res) results

/-- Model of `getOutdoorTemperatureWithCache(stationId, timestamps)` together with
the resulting state of the persistent sheet.  `now` is the invocation time
(`new Date()`), `fetch` the external per-hour temperature API. -/
def getOutdoorTemperatureWithCache (fetch : String → Int → Option ℚ) (now : Int)
    (stationId : String) (timestamps : List Int) (store : List OutdoorTempRow) :
    List TemperatureData × List OutdoorTempRow :=
  if timestamps.isEmpty then ([], store)
  else
    let cachedData := enrichCached stationId timestamps store
    let twoDaysAgo := now - twoDaysMs
    let results := timestamps.map (enrichProbe cachedData)
    let missingData := enrichMissing cachedData twoDaysAgo timestamps
    if missingData.isEmpty then (results, store)
    else
      let fetchedData := getTemperatureHistory fetch stationId missingData
      (mergeFetched fetchedData results,
       saveOutdoorTemperatureData stationId fetchedData store)

/-! ## Per-hour fetcher (`getTemperatureAtTime`)

The upstream hourly observation service is modelled by a function from the
(hour-encoded) request instant to an outcome: either the transport layer
throws, or an HTTP status code is returned together with a body that is
malformed JSON or a parsed per-station mapping `stationId → temp array`. -/

/-- Body of an HTTP response of the hourly observation service. -/
inductive JsonBody where
  | malformed : JsonBody
  | json : List (String × List ℚ) → JsonBody
deriving DecidableEq, Repr

/-- Outcome of `UrlFetchApp.fetch` for one hourly request. -/
inductive FetchResult where
  | fetchThrow : FetchResult
  | status : Int → JsonBody → FetchResult
deriving DecidableEq, Repr

/-- Model of `json[stationId] && json[stationId].temp && json[stationId].temp.length > 0
? json[stationId].temp[0] : null`. -/
def firstTemp (entries : List (String × List ℚ)) (stationId : String) : Option ℚ :=
  match entries.find? (fun e => decide (e.1 = stationId)) with
  | some (_, v :: _) => some v
  | _ => none

/-- The `try`-block of `getTemperatureAtTime`: `.error ()` marks a thrown
exception (transport failure or `JSON.parse` failure). -/
def getTemperatureAtTimeBody (upstream : Int → FetchResult) (stationId : String)
    (datetime : Int) : Except Unit (Option ℚ) :=
  match upstream datetime with
  | .fetchThrow => .error ()
  | .status code body =>
    if code ≠ 200 then .ok none
    else
      match body with
      | .malformed => .error ()
      | .json entries => .ok (firstTemp entries stationId)

/-- Model of `getTemperatureAtTime(stationId, datetime)`: the whole body is wrapped
in `try { ... } catch (error) { Logger.log(...); return null; }`. -/
def getTemperatureAtTime (upstream : Int → FetchResult) (stationId : String)
    (datetime : Int) : Option ℚ :=
  match getTemperatureAtTimeBody upstream stationId datetime with
  | .ok v => v
  | .error _ => none

/-- The responses for which the observed behaviour of
`getTemperatureAtTime` is a soft `null`: a thrown transport error, a
malformed body, a non-success status, or a success with no reading for the
station. -/
def yieldsAbsent (r : FetchResult) (stationId : String) : Prop :=
  match r with
  | .fetchThrow => True
  | .status _ .malformed => True
  | .status code (.json entries) => code ≠ 200 ∨ firstTemp entries stationId = none

/-! ## Data-freshness check (`updateSingleChart` / `updateAllCharts`)

`updateSingleChart` filters the sheet's data rows to the trailing two days,
takes the last remaining row, and reports a `DataGapInfo` when that row is
more than 90 minutes old.  Only the row timestamps matter; the sheet's data
rows (header excluded) are passed as a list of instants in sheet order. -/

/-- Model of `interface DataGapInfo` (time difference in minutes, as computed). -/
structure DataGapInfo where
  sheetName : String
  latestTimestamp : Int
  timeDiffMinutes : ℚ
deriving DecidableEq, Repr

/-- The data-gap detection logic of `updateSingleChart`. -/
def dataGapCheck (sheetName : String) (dataRows : List Int) (now : Int) :
    Option DataGapInfo :=
  let twoDaysAgo := now - twoDaysMs
  let recentData := dataRows.filter (fun t => decide (twoDaysAgo ≤ t))
  match recentData.getLast? with
  | none => none
  | some latestTimestamp =>
    let timeDiffMinutes : ℚ := ((now - latestTimestamp : Int) : ℚ) / (1000 * 60)
    if 90 < timeDiffMinutes then some ⟨sheetName, latestTimestamp, timeDiffMinutes⟩
    else none

/-! ## Nearest-station search (`calculateDistance` / `findNearestAmedasStation`)

JS floating-point numbers and `Math.sin`/`cos`/`sqrt`/`atan2` are modelled
over `ℝ` with the corresponding real functions.  The station directory
(`Object.entries(stations)`) is a list of `(id, raw station)` pairs in
iteration order; raw latitude/longitude are degree+minute pairs, converted
to decimal degrees inside the loop. -/

/-- Model of `interface AmedasStation`. -/
structure AmedasStation where
  id : String
  name : String
  lat : ℝ
  lon : ℝ
  alt : ℝ

/-- One value of the fetched station directory (`amedastable.json`):
degree+minute latitude/longitude, display name, altitude. -/
structure AmedasRawStation where
  latDeg : ℝ
  latMin : ℝ
  lonDeg : ℝ
  lonMin : ℝ
  kjName : String
  alt : ℝ

/-- JS `Math.atan2 y x` (the standard two-argument arctangent). -/
noncomputable def atan2 (y x : ℝ) : ℝ :=
  if 0 < x then Real.arctan (y / x)
  else if x < 0 then
    (if 0 ≤ y then Real.arctan (y / x) + Real.pi else Real.arctan (y / x) - Real.pi)
  else if 0 < y then Real.pi / 2
  else if y < 0 then -(Real.pi / 2)
  else 0

/-- Model of `calculateDistance(lat1, lon1, lat2, lon2)`: Haversine distance in km
with R = 6371. -/
noncomputable def calculateDistance (lat1 lon1 lat2 lon2 : ℝ) : ℝ :=
  let R : ℝ := 6371
  let dLat := (lat2 - lat1) * Real.pi / 180
  let dLon := (lon2 - lon1) * Real.pi / 180
  let a := Real.sin (dLat / 2) * Real.sin (dLat / 2) +
    Real.cos (lat1 * Real.pi / 180) * Real.cos (lat2 * Real.pi / 180) *
      Real.sin (dLon / 2) * Real.sin (dLon / 2)
  let c := 2 * atan2 (Real.sqrt a) (Real.sqrt (1 - a))
  R * c

/-- Model of `Number.MAX_VALUE`, the initial value of `minDistance`. -/
noncomputable def numberMaxValue : ℝ := 17976931348623157 * 10 ^ 292

/-- The `AmedasStation` record built from one directory entry
(degree+minute converted to decimal degrees). -/
noncomputable def entryStation (p : String × AmedasRawStation) : AmedasStation :=
  ⟨p.1, p.2.kjName, p.2.latDeg + p.2.latMin / 60, p.2.lonDeg + p.2.lonMin / 60, p.2.alt⟩

/-- The distance computed for one directory entry. -/
noncomputable def entryDistance (lat lon : ℝ) (p : String × AmedasRawStation) : ℝ :=
  calculateDistance lat lon (p.2.latDeg + p.2.latMin / 60) (p.2.lonDeg + p.2.lonMin / 60)

/-- One iteration of the directory loop: replace the running best exactly
when the new distance is strictly smaller. -/
noncomputable def nearestStep (lat lon : ℝ) (acc : ℝ × Option AmedasStation)
    (p : String × AmedasRawStation) : ℝ × Option AmedasStation :=
  if entryDistance lat lon p < acc.1 then (entryDistance lat lon p, some (entryStation p))
  else acc

/-- Model of `findNearestAmedasStation(lat, lon)` over a given directory; `none`
models the thrown `Error` ("最寄りのアメダス観測所が見つかりませんでした"). -/
noncomputable def findNearestAmedasStation (stations : List (String × AmedasRawStation))
    (lat lon : ℝ) : Option AmedasStation :=
  (stations.foldl (nearestStep lat lon) (numberMaxValue, none)).2

/-! ## Association-map and load-scan lemmas -/

theorem mapGet_mapSet (m : List (Int × ℚ)) (k : Int) (v : ℚ) (k' : Int) :
    mapGet (mapSet m k v) k' = if k' = k then some v else mapGet m k' := by
  induction m with
  | nil =>
    by_cases h : k' = k
    · simp [mapSet, mapGet, h]
    · simp [mapSet, mapGet, h, Ne.symm h]
  | cons p ps ih =>
    rw [mapSet]
    by_cases h1 : p.1 = k
    · rw [if_pos h1]
      by_cases h2 : k' = k
      · simp [mapGet, h2]
      · simp [mapGet, h2, Ne.symm h2,
          show ¬ p.1 = k' from fun hh => h2 (hh.symm.trans h1)]
    · rw [if_neg h1]
      by_cases h3 : p.1 = k'
      · have h2 : ¬ k' = k := fun hh => h1 (h3.trans hh)
        simp [mapGet, h3, h2]
      · simp [mapGet, h3, ih]

theorem optMap_or {α β : Type} (f : α → β) (o o' : Option α) :
    (o.or o').map f = (o.map f).or (o'.map f) := by
  cases o <;> simp

theorem getLast?_cons_or {α : Type} (a : α) (l : List α) :
    (a :: l).getLast? = l.getLast?.or (some a) := by
  cases l with
  | nil => rfl
  | cons b m =>
    rw [List.getLast?_cons_cons]
    cases h : (b :: m).getLast? with
    | some x => simp
    | none => exact absurd (List.getLast?_eq_none_iff.mp h) (by simp)

theorem mapGet_foldl_loadStep (stationId : String) (a b : Int)
    (rows : List OutdoorTempRow) (m : List (Int × ℚ)) (k : Int) :
    mapGet (rows.foldl (loadStep stationId a b) m) k =
      (((rows.filter (rowMatches stationId a b k)).getLast?).map
        OutdoorTempRow.temperature).or (mapGet m k) := by
  induction rows generalizing m with
  | nil => simp
  | cons r rows ih =>
    by_cases hin : r.stationId = stationId ∧ a ≤ r.timestamp ∧ r.timestamp ≤ b
    · by_cases hk : hourFloor r.timestamp = k
      · have hmatch : rowMatches stationId a b k r = true := by
          simp [rowMatches, hin.1, hin.2.1, hin.2.2, hk]
        rw [List.foldl_cons, List.filter_cons_of_pos hmatch, loadStep, if_pos hin, hk, ih,
          getLast?_cons_or, optMap_or, Option.or_assoc]
        simp [mapGet_mapSet]
      · have hmatch : rowMatches stationId a b k r = false := by
          simp [rowMatches, hk]
        rw [List.foldl_cons, List.filter_cons_of_neg (by simp [hmatch]), loadStep, if_pos hin, ih]
        simp [mapGet_mapSet, hk, Ne.symm hk]
    · have hmatch : rowMatches stationId a b k r = false := by
        simp only [rowMatches, decide_eq_false_iff_not]
        exact fun h => hin ⟨h.1, h.2.1, h.2.2.1⟩
      rw [List.foldl_cons, List.filter_cons_of_neg (by simp [hmatch]), loadStep, if_neg hin, ih]

/-- What one range query returns at key `k`: the temperature of the **last**
matching row in scan order (claim C10's characterization). -/
theorem mapGet_load (stationId : String) (a b : Int)
    (store : List OutdoorTempRow) (k : Int) :
    mapGet (loadOutdoorTemperatureData stationId a b store) k =
      ((store.filter (rowMatches stationId a b k)).getLast?).map
        OutdoorTempRow.temperature := by
  rw [loadOutdoorTemperatureData, mapGet_foldl_loadStep]
  simp [mapGet]

/-! ## Claim C10 — duplicate rows: the last matching row wins -/

/-- Claim C10. When the persistent store holds multiple rows for the same
station id and the same normalized hour inside the queried window, the range
query returns the temperature of the last matching row in scan order (each
later `Map.set` overwrites the earlier one), so lookups over a fixed store
state are deterministic. -/
theorem load_returns_last_matching_row (stationId : String) (a b : Int)
    (store : List OutdoorTempRow) (k : Int) :
    mapGet (loadOutdoorTemperatureData stationId a b store) k =
      ((store.filter (rowMatches stationId a b k)).getLast?).map
        OutdoorTempRow.temperature :=
  mapGet_load stationId a b store k

/-! ## Claim C9 — data-freshness gap reporting -/

/-- Claim C9. A freshness gap is reported iff the sheet has at least one data
row within the trailing 2 days and the last such row (in sheet order) is
more than 90 minutes before the invocation time; in particular no recent
row at all means no alert. -/
theorem dataGapCheck_reported_iff (sheetName : String) (dataRows : List Int) (now : Int) :
    (dataGapCheck sheetName dataRows now).isSome = true ↔
      ∃ l, (dataRows.filter (fun t => decide (now - twoDaysMs ≤ t))).getLast? = some l ∧
        90 < ((now - l : Int) : ℚ) / (1000 * 60) := by
  have hdef : dataGapCheck sheetName dataRows now =
      match (dataRows.filter (fun t => decide (now - twoDaysMs ≤ t))).getLast? with
      | none => none
      | some l =>
        if 90 < ((now - l : Int) : ℚ) / (1000 * 60) then
          some ⟨sheetName, l, ((now - l : Int) : ℚ) / (1000 * 60)⟩
        else none := rfl
  rw [hdef]
  cases h : (dataRows.filter (fun t => decide (now - twoDaysMs ≤ t))).getLast? with
  | none => simp
  | some l =>
    by_cases hd : (90 : ℚ) < ((now - l : Int) : ℚ) / (1000 * 60)
    · simp [hd]
    · simp [hd]

/-! ## Claim C4 — per-hour fetch error handling

The claim says transport/parse failures surface as a hard `UpstreamError`.
The code wraps the whole body in `try { ... } catch { return null; }`, so
they are in fact converted into the same soft `null` as per-item "no data". -/

/-- Claim C4, counterexample. A transport failure (the `UrlFetchApp.fetch`
call throws) is caught by `getTemperatureAtTime` and converted into a soft
`null`: the inner body raises, yet the caller observes `none` rather than
any propagated error. -/
theorem getTemperatureAtTime_swallows_transport_failure :
    getTemperatureAtTimeBody (fun _ => FetchResult.fetchThrow) "44132" 0 =
      Except.error () ∧
    getTemperatureAtTime (fun _ => FetchResult.fetchThrow) "44132" 0 = none :=
  ⟨rfl, rfl⟩

/-- Claim C4, amended. `getTemperatureAtTime` returns `absent` (never a
propagated error) exactly when the upstream responds with a non-success
status, responds successfully without a reading for the station, or the
transport/parse layer fails (the `catch` turns hard failures into the same
soft `null`); it returns the first reading otherwise. -/
theorem getTemperatureAtTime_absent_iff (upstream : Int → FetchResult)
    (stationId : String) (datetime : Int) :
    getTemperatureAtTime upstream stationId datetime = none ↔
      yieldsAbsent (upstream datetime) stationId := by
  unfold getTemperatureAtTime getTemperatureAtTimeBody yieldsAbsent
  cases h : upstream datetime with
  | fetchThrow => simp
  | status code body =>
    cases body with
    | malformed =>
      by_cases hc : code ≠ 200 <;> simp [hc]
    | json entries =>
      by_cases hc : code ≠ 200 <;> simp [hc]

/-! ## Claim C6 — store round-trip -/

/-- Claim C6, counterexample. A reading fetched at 00:30 (epoch ms 1800000) is
stored with its raw timestamp.  The window `[0, 600000]` contains the
reading's hour `0 = hourFloor 1800000`, yet the query returns nothing for
that hour, because the load scan filters on the raw stored timestamp. -/
theorem store_roundTrip_hour_window_counterexample :
    hourFloor 1800000 = 0 ∧ ((0 : Int) ≤ (0 : Int) ∧ (0 : Int) ≤ (600000 : Int)) ∧
    mapGet (loadOutdoorTemperatureData "A" 0 600000
      (saveOutdoorTemperatureData "A" [⟨1800000, some 7⟩] [])) (hourFloor 1800000) =
      none := by
  refine ⟨by decide, ⟨by decide, by decide⟩, ?_⟩
  decide

/-- Claim C6, amended. Appending a reading with a present temperature and then
querying the same station over any window containing the reading's **raw
timestamp** returns exactly that temperature value, keyed by the reading's
normalized hour — whatever the store already contained. -/
theorem store_roundTrip (stationId : String) (ts : Int) (v : ℚ)
    (store : List OutdoorTempRow) (a b : Int) (h1 : a ≤ ts) (h2 : ts ≤ b) :
    mapGet (loadOutdoorTemperatureData stationId a b
      (saveOutdoorTemperatureData stationId [⟨ts, some v⟩] store)) (hourFloor ts) =
      some v := by
  rw [mapGet_load]
  have hsave : saveOutdoorTemperatureData stationId [⟨ts, some v⟩] store =
      store ++ [⟨ts, stationId, v⟩] := rfl
  have hm : rowMatches stationId a b (hourFloor ts) ⟨ts, stationId, v⟩ = true := by
    simp [rowMatches, h1, h2]
  rw [hsave, List.filter_append]
  simp [hm]

/-- Witness for C6 (amended): concrete round-trip through the store. -/
theorem store_roundTrip_witness :
    (0 : Int) ≤ 1800000 ∧ (1800000 : Int) ≤ 3600000 ∧
    mapGet (loadOutdoorTemperatureData "A" 0 3600000
      (saveOutdoorTemperatureData "A" [⟨1800000, some 7⟩] [])) (hourFloor 1800000) =
      some 7 :=
  ⟨by decide, by decide, store_roundTrip "A" 1800000 7 [] 0 3600000 (by decide) (by decide)⟩

/-! ## Lemmas about `updateTempAt`, `findIndex`, `mergeFetched` -/

theorem updateTempAt_timestamps (l : List TemperatureData) (i : Nat) (v : Option ℚ) :
    (updateTempAt l i v).map TemperatureData.timestamp =
      l.map TemperatureData.timestamp := by
  induction l generalizing i with
  | nil => rfl
  | cons r rs ih =>
    cases i with
    | zero => rfl
    | succ n => simp [updateTempAt, ih]

theorem updateTempAt_getElem?_ne (l : List TemperatureData) (i j : Nat) (v : Option ℚ)
    (h : j ≠ i) : (updateTempAt l i v)[j]? = l[j]? := by
  induction l generalizing i j with
  | nil => rfl
  | cons r rs ih =>
    cases i with
    | zero =>
      cases j with
      | zero => exact absurd rfl h
      | succ m => simp [updateTempAt]
    | succ n =>
      cases j with
      | zero => simp [updateTempAt]
      | succ m => simpa [updateTempAt] using ih n m (fun hh => h (by omega))

theorem updateTempAt_getElem?_self (l : List TemperatureData) (i : Nat) (v : Option ℚ) :
    (updateTempAt l i v)[i]? = l[i]?.map (fun r => ⟨r.timestamp, v⟩) := by
  induction l generalizing i with
  | nil => rfl
  | cons r rs ih =>
    cases i with
    | zero => simp [updateTempAt]
    | succ n => simpa [updateTempAt] using ih n

theorem findIndex_pred {α : Type} (p : α → Bool) (l : List α) (i : Nat)
    (h : findIndex p l = some i) : ∃ a, l[i]? = some a ∧ p a = true := by
  induction l generalizing i with
  | nil => simp [findIndex] at h
  | cons x xs ih =>
    rw [findIndex] at h
    by_cases hx : p x = true
    · rw [if_pos hx] at h
      cases h
      exact ⟨x, by simp, hx⟩
    · rw [if_neg hx] at h
      cases hfi : findIndex p xs with
      | none => rw [hfi] at h; simp at h
      | some m =>
        rw [hfi] at h
        have hi : m + 1 = i := by simpa using h
        subst hi
        obtain ⟨a, ha, hpa⟩ := ih m hfi
        exact ⟨a, by simpa using ha, hpa⟩

theorem findIndex_min {α : Type} (p : α → Bool) (l : List α) (i : Nat)
    (h : findIndex p l = some i) :
    ∀ j, j < i → ∀ x, l[j]? = some x → p x = false := by
  induction l generalizing i with
  | nil => simp [findIndex] at h
  | cons a as ih =>
    rw [findIndex] at h
    by_cases hx : p a = true
    · rw [if_pos hx] at h
      cases h
      intro j hj x _
      exact absurd hj (Nat.not_lt_zero j)
    · rw [if_neg hx] at h
      cases hfi : findIndex p as with
      | none => rw [hfi] at h; simp at h
      | some m =>
        rw [hfi] at h
        have hi : m + 1 = i := by simpa using h
        subst hi
        intro j hj x hx'
        cases j with
        | zero =>
          simp only [List.getElem?_cons_zero, Option.some_inj] at hx'
          subst hx'
          simpa using hx
        | succ n =>
          simp only [List.getElem?_cons_succ] at hx'
          exact ih m hfi n (by omega) x hx'

theorem findIndex_isSome_of_mem {α : Type} (p : α → Bool) (l : List α) (a : α)
    (hm : a ∈ l) (hp : p a = true) : ∃ i, findIndex p l = some i := by
  induction l with
  | nil => cases hm
  | cons x xs ih =>
    rw [findIndex]
    by_cases hx : p x = true
    · exact ⟨0, by rw [if_pos hx]⟩
    · rcases List.mem_cons.mp hm with rfl | hm'
      · exact absurd hp hx
      · obtain ⟨i, hi⟩ := ih hm'
        exact ⟨i + 1, by rw [if_neg hx, hi]; rfl⟩

theorem findIndex_le_of_pred {α : Type} (p : α → Bool) (l : List α) (i : Nat) (a : α)
    (ha : l[i]? = some a) (hp : p a = true) :
    ∃ i0, i0 ≤ i ∧ findIndex p l = some i0 := by
  induction l generalizing i with
  | nil => simp at ha
  | cons x xs ih =>
    rw [findIndex]
    by_cases hx : p x = true
    · exact ⟨0, Nat.zero_le _, by rw [if_pos hx]⟩
    · cases i with
      | zero =>
        simp only [List.getElem?_cons_zero, Option.some_inj] at ha
        exact absurd (ha ▸ hp) hx
      | succ n =>
        simp only [List.getElem?_cons_succ] at ha
        obtain ⟨i0, hle, hfi⟩ := ih n ha
        exact ⟨i0 + 1, by omega, by rw [if_neg hx, hfi]; rfl⟩

/-- Fact: `findIndex` on a timestamp predicate only depends on the timestamps. -/
theorem findIndex_timestamp_congr (τ : Int) (l l' : List TemperatureData)
    (h : l.map TemperatureData.timestamp = l'.map TemperatureData.timestamp) :
    findIndex (fun r => decide (r.timestamp = τ)) l =
      findIndex (fun r => decide (r.timestamp = τ)) l' := by
  induction l generalizing l' with
  | nil =>
    cases l' with
    | nil => rfl
    | cons b bs => simp at h
  | cons a as ih =>
    cases l' with
    | nil => simp at h
    | cons b bs =>
      simp only [List.map_cons, List.cons.injEq] at h
      rw [findIndex, findIndex, h.1, ih bs h.2]

theorem mergeFetched_nil (res : List TemperatureData) : mergeFetched [] res = res := rfl

theorem mergeFetched_cons (f : TemperatureData) (fs res : List TemperatureData) :
    mergeFetched (f :: fs) res =
      mergeFetched fs
        (match findIndex (fun r => decide (r.timestamp = f.timestamp)) res with
        | some i => updateTempAt res i f.temperature
        | none => res) := rfl

theorem mergeFetched_timestamps (fs res : List TemperatureData) :
    (mergeFetched fs res).map TemperatureData.timestamp =
      res.map TemperatureData.timestamp := by
  induction fs generalizing res with
  | nil => rfl
  | cons f fs ih =>
    rw [mergeFetched_cons]
    cases hfi : findIndex (fun r => decide (r.timestamp = f.timestamp)) res with
    | none => exact ih res
    | some i => rw [ih, updateTempAt_timestamps]

/-- A result entry whose position is **not** the first index of its own
timestamp is never touched by the merge loop. -/
theorem mergeFetched_getElem?_preserved (fs res : List TemperatureData)
    (j : Nat) (r : TemperatureData) (hj : res[j]? = some r)
    (hne : ∀ f ∈ fs, f.timestamp = r.timestamp →
      findIndex (fun x => decide (x.timestamp = r.timestamp)) res ≠ some j) :
    (mergeFetched fs res)[j]? = some r := by
  induction fs generalizing res with
  | nil => simpa [mergeFetched_nil] using hj
  | cons f fs ih =>
    rw [mergeFetched_cons]
    cases hfi : findIndex (fun x => decide (x.timestamp = f.timestamp)) res with
    | none =>
      exact ih res hj (fun f' hf' => hne f' (List.mem_cons_of_mem f hf'))
    | some i =>
      have hij : i ≠ j := by
        obtain ⟨a, ha, hpa⟩ := findIndex_pred _ res i hfi
        intro hh
        subst hh
        rw [hj] at ha
        cases ha
        have hts : r.timestamp = f.timestamp := by simpa using hpa
        exact hne f (List.mem_cons_self f fs) hts.symm (hts ▸ hfi)
      have hj' : (updateTempAt res i f.temperature)[j]? = some r :=
        (updateTempAt_getElem?_ne res i j f.temperature (fun hh => hij hh.symm)).trans hj
      refine ih _ hj' ?_
      intro f' hf' hts'
      rw [findIndex_timestamp_congr r.timestamp _ res (updateTempAt_timestamps res i _)]
      exact hne f' (List.mem_cons_of_mem f hf') hts'

/-- When every fetched item carrying timestamp `τ` carries the same value
`w` and at least one such item exists, the entry at the first index of `τ`
ends the merge loop holding `⟨τ, w⟩`. -/
theorem mergeFetched_getElem?_first (fs res : List TemperatureData)
    (i0 : Nat) (τ : Int) (w : Option ℚ)
    (hfi : findIndex (fun x => decide (x.timestamp = τ)) res = some i0)
    (hex : ∃ f ∈ fs, f.timestamp = τ)
    (hall : ∀ f ∈ fs, f.timestamp = τ → f.temperature = w) :
    (mergeFetched fs res)[i0]? = some ⟨τ, w⟩ := by
  induction fs generalizing res with
  | nil => obtain ⟨f, hf, _⟩ := hex; cases hf
  | cons f fs ih =>
    rw [mergeFetched_cons]
    by_cases hf : f.timestamp = τ
    · rw [hf, hfi]
      have hw : f.temperature = w := hall f (List.mem_cons_self f fs) hf
      have hent : (updateTempAt res i0 f.temperature)[i0]? = some ⟨τ, w⟩ := by
        obtain ⟨a, ha, hpa⟩ := findIndex_pred _ res i0 hfi
        rw [updateTempAt_getElem?_self, ha, hw]
        have : a.timestamp = τ := by simpa using hpa
        simp [this]
      have hfi' : findIndex (fun x => decide (x.timestamp = τ))
          (updateTempAt res i0 f.temperature) = some i0 := by
        rw [findIndex_timestamp_congr τ _ res (updateTempAt_timestamps res i0 _)]
        exact hfi
      by_cases hex' : ∃ f' ∈ fs, f'.timestamp = τ
      · exact ih _ hfi' hex' (fun f' hf' => hall f' (List.mem_cons_of_mem f hf'))
      · refine mergeFetched_getElem?_preserved fs _ i0 ⟨τ, w⟩ hent ?_
        intro f' hf' hts' _
        exact hex' ⟨f', hf', hts'⟩
    · have hex' : ∃ f' ∈ fs, f'.timestamp = τ := by
        obtain ⟨f', hf', hts'⟩ := hex
        rcases List.mem_cons.mp hf' with rfl | hm
        · exact absurd hts' hf
        · exact ⟨f', hm, hts'⟩
      cases hfi2 : findIndex (fun x => decide (x.timestamp = f.timestamp)) res with
      | none => exact ih res hfi hex' (fun f' hf' => hall f' (List.mem_cons_of_mem f hf'))
      | some i =>
        have hfi' : findIndex (fun x => decide (x.timestamp = τ))
            (updateTempAt res i f.temperature) = some i0 := by
          rw [findIndex_timestamp_congr τ _ res (updateTempAt_timestamps res i _)]
          exact hfi
        exact ih _ hfi' hex' (fun f' hf' => hall f' (List.mem_cons_of_mem f hf'))

/-! ## Lemmas about `getOutdoorTemperatureWithCache` -/

theorem enrich_eq_of_ne_nil (fetch : String → Int → Option ℚ) (now : Int) (st : String)
    (ts : List Int) (store : List OutdoorTempRow) (h : ts ≠ []) :
    getOutdoorTemperatureWithCache fetch now st ts store =
      if (enrichMissing (enrichCached st ts store) (now - twoDaysMs) ts).isEmpty then
        (ts.map (enrichProbe (enrichCached st ts store)), store)
      else
        (mergeFetched
          (getTemperatureHistory fetch st
            (enrichMissing (enrichCached st ts store) (now - twoDaysMs) ts))
          (ts.map (enrichProbe (enrichCached st ts store))),
         saveOutdoorTemperatureData st
          (getTemperatureHistory fetch st
            (enrichMissing (enrichCached st ts store) (now - twoDaysMs) ts)) store) := by
  have hne : ts.isEmpty = false := by simp [h]
  simp only [getOutdoorTemperatureWithCache, hne, Bool.false_eq_true, if_false]

theorem probe_timestamps (c : List (Int × ℚ)) (ts : List Int) :
    (ts.map (enrichProbe c)).map TemperatureData.timestamp = ts := by
  rw [List.map_map]
  have hco : TemperatureData.timestamp ∘ enrichProbe c = id := rfl
  rw [hco, List.map_id]

theorem mem_enrichMissing (c : List (Int × ℚ)) (A : Int) (ts : List Int) (t : Int) :
    t ∈ enrichMissing c A ts ↔ t ∈ ts ∧ mapGet c (hourFloor t) = none ∧ A ≤ t := by
  simp [enrichMissing, List.mem_filter, Option.isNone_iff_eq_none, and_assoc]

theorem mem_getTemperatureHistory (fetch : String → Int → Option ℚ) (st : String)
    (ms : List Int) (f : TemperatureData) :
    f ∈ getTemperatureHistory fetch st ms ↔
      ∃ u ∈ ms, f = ⟨u, fetch st (hourFloor u)⟩ := by
  unfold getTemperatureHistory
  rw [List.mem_map]
  constructor
  · rintro ⟨u, hu, rfl⟩
    exact ⟨u, hu, rfl⟩
  · rintro ⟨u, hu, rfl⟩
    exact ⟨u, hu, rfl⟩

/-- The value the enrichment pipeline delivers for one requested timestamp,
when the requested timestamps are pairwise distinct: the cached value on a
hit, the live fetch on a recent miss, `null` on an old miss. -/
theorem enrich_entry_nodup (fetch : String → Int → Option ℚ) (now : Int) (st : String)
    (ts : List Int) (store : List OutdoorTempRow) (hnd : ts.Nodup)
    (i : Nat) (t : Int) (h : ts[i]? = some t) :
    (getOutdoorTemperatureWithCache fetch now st ts store).1[i]? =
      some ⟨t,
        match mapGet (enrichCached st ts store) (hourFloor t) with
        | some v => some v
        | none => if now - twoDaysMs ≤ t then fetch st (hourFloor t) else none⟩ := by
  have hne : ts ≠ [] := List.ne_nil_of_mem (List.getElem?_mem h)
  rw [enrich_eq_of_ne_nil fetch now st ts store hne]
  set c := enrichCached st ts store with hc
  set A := now - twoDaysMs with hA
  set ms := enrichMissing c A ts with hmsd
  set res0 := ts.map (enrichProbe c) with hres0d
  set F := getTemperatureHistory fetch st ms with hF
  have hres0 : res0[i]? = some (enrichProbe c t) := by
    rw [hres0d, List.getElem?_map, h]
    rfl
  cases hcv : mapGet c (hourFloor t) with
  | some v =>
    have hentry : res0[i]? = some ⟨t, some v⟩ := by
      rw [hres0]
      simp [enrichProbe, hcv]
    have htm : t ∉ ms := by
      rw [hmsd, mem_enrichMissing]
      rintro ⟨-, hn, -⟩
      rw [hcv] at hn
      cases hn
    by_cases hmse : ms.isEmpty
    · rw [if_pos hmse]
      simpa using hentry
    · rw [if_neg hmse]
      have hpres := mergeFetched_getElem?_preserved F res0 i ⟨t, some v⟩ hentry ?_
      · simpa using hpres
      · intro f hf hts'
        rw [hF, mem_getTemperatureHistory] at hf
        obtain ⟨u, hu, rfl⟩ := hf
        have : u = t := hts'
        subst this
        exact (htm hu).elim
  | none =>
    have hentry : res0[i]? = some ⟨t, none⟩ := by
      rw [hres0]
      simp [enrichProbe, hcv]
    by_cases hrec : A ≤ t
    · have htm : t ∈ ms := by
        rw [hmsd, mem_enrichMissing]
        exact ⟨List.getElem?_mem h, hcv, hrec⟩
      have hmse : ¬ ms.isEmpty = true := by
        rw [List.isEmpty_iff]
        exact List.ne_nil_of_mem htm
      rw [if_neg hmse]
      obtain ⟨i0, hle, hfi⟩ :=
        findIndex_le_of_pred (fun x => decide (x.timestamp = t)) res0 i ⟨t, none⟩ hentry
          (by simp)
      obtain ⟨a, ha0, hpa⟩ := findIndex_pred _ res0 i0 hfi
      have hts0 : ts[i0]? = some t := by
        rw [hres0d, List.getElem?_map] at ha0
        cases hu : ts[i0]? with
        | none => rw [hu] at ha0; simp at ha0
        | some u =>
          rw [hu] at ha0
          simp only [Option.map_some', Option.some_inj] at ha0
          have hat : a.timestamp = t := by simpa using hpa
          rw [← ha0] at hat
          exact congrArg some hat
      have hlen : i0 < ts.length := by
        by_contra hlt
        rw [List.getElem?_eq_none (by omega)] at hts0
        cases hts0
      have hii : i0 = i := List.getElem?_inj hlen hnd (hts0.trans h.symm)
      subst hii
      have hfirst := mergeFetched_getElem?_first F res0 i0 t (fetch st (hourFloor t)) hfi ?_ ?_
      · rw [hfirst]
        simp [hrec]
      · refine ⟨⟨t, fetch st (hourFloor t)⟩, ?_, rfl⟩
        rw [hF, mem_getTemperatureHistory]
        exact ⟨t, htm, rfl⟩
      · intro f hf hts'
        rw [hF, mem_getTemperatureHistory] at hf
        obtain ⟨u, hu, rfl⟩ := hf
        have : u = t := hts'
        subst this
        rfl
    · have htm : t ∉ ms := by
        rw [hmsd, mem_enrichMissing]
        rintro ⟨-, -, hr⟩
        exact hrec hr
      by_cases hmse : ms.isEmpty
      · rw [if_pos hmse]
        simpa [hrec] using hentry
      · rw [if_neg hmse]
        have hpres := mergeFetched_getElem?_preserved F res0 i ⟨t, none⟩ hentry ?_
        · simpa [hrec] using hpres
        · intro f hf hts'
          rw [hF, mem_getTemperatureHistory] at hf
          obtain ⟨u, hu, rfl⟩ := hf
          have : u = t := hts'
          subst this
          exact (htm hu).elim

theorem enrich_fst_of_ne_nil (fetch : String → Int → Option ℚ) (now : Int) (st : String)
    (ts : List Int) (store : List OutdoorTempRow) (h : ts ≠ []) :
    (getOutdoorTemperatureWithCache fetch now st ts store).1 =
      if (enrichMissing (enrichCached st ts store) (now - twoDaysMs) ts).isEmpty then
        ts.map (enrichProbe (enrichCached st ts store))
      else
        mergeFetched
          (getTemperatureHistory fetch st
            (enrichMissing (enrichCached st ts store) (now - twoDaysMs) ts))
          (ts.map (enrichProbe (enrichCached st ts store))) := by
  rw [enrich_eq_of_ne_nil fetch now st ts store h]
  split <;> rfl

theorem enrich_snd_of_ne_nil (fetch : String → Int → Option ℚ) (now : Int) (st : String)
    (ts : List Int) (store : List OutdoorTempRow) (h : ts ≠ []) :
    (getOutdoorTemperatureWithCache fetch now st ts store).2 =
      if (enrichMissing (enrichCached st ts store) (now - twoDaysMs) ts).isEmpty then
        store
      else
        saveOutdoorTemperatureData st
          (getTemperatureHistory fetch st
            (enrichMissing (enrichCached st ts store) (now - twoDaysMs) ts)) store := by
  rw [enrich_eq_of_ne_nil fetch now st ts store h]
  split <;> rfl

theorem probe_findIndex_getElem? (c : List (Int × ℚ)) (ts : List Int) (τ : Int) (i0 : Nat)
    (hfi : findIndex (fun x => decide (x.timestamp = τ)) (ts.map (enrichProbe c)) = some i0) :
    ts[i0]? = some τ := by
  obtain ⟨a, ha0, hpa⟩ := findIndex_pred _ _ i0 hfi
  rw [List.getElem?_map] at ha0
  cases hu : ts[i0]? with
  | none => rw [hu] at ha0; simp at ha0
  | some u =>
    rw [hu] at ha0
    simp only [Option.map_some', Option.some_inj] at ha0
    have hat : a.timestamp = τ := by simpa using hpa
    rw [← ha0] at hat
    exact congrArg some hat

theorem probe_findIndex_min (c : List (Int × ℚ)) (ts : List Int) (τ : Int) (i0 : Nat)
    (hfi : findIndex (fun x => decide (x.timestamp = τ)) (ts.map (enrichProbe c)) = some i0) :
    ∀ i', i' < i0 → ts[i']? ≠ some τ := by
  intro i' hlt heq
  have hres : (ts.map (enrichProbe c))[i']? = some (enrichProbe c τ) := by
    rw [List.getElem?_map, heq]
    rfl
  have hmin := findIndex_min _ _ i0 hfi i' hlt _ hres
  simp [enrichProbe] at hmin

/-! ## Claim C1 — output shape mirrors the input -/

theorem enrich_map_timestamp (fetch : String → Int → Option ℚ) (now : Int)
    (st : String) (ts : List Int) (store : List OutdoorTempRow) (h : ts ≠ []) :
    (getOutdoorTemperatureWithCache fetch now st ts store).1.map
      TemperatureData.timestamp = ts := by
  rw [enrich_fst_of_ne_nil fetch now st ts store h]
  by_cases hmse : (enrichMissing (enrichCached st ts store) (now - twoDaysMs) ts).isEmpty
  · rw [if_pos hmse, probe_timestamps]
  · rw [if_neg hmse, mergeFetched_timestamps, probe_timestamps]

theorem enrich_length (fetch : String → Int → Option ℚ) (now : Int)
    (st : String) (ts : List Int) (store : List OutdoorTempRow) (h : ts ≠ []) :
    (getOutdoorTemperatureWithCache fetch now st ts store).1.length = ts.length := by
  have hlen := congrArg List.length (enrich_map_timestamp fetch now st ts store h)
  simpa using hlen

/-- Claim C1. For every station id and every non-empty sequence of requested
timestamps, the enrichment returns exactly one entry per input, in input
order: same length, and the i-th result carries the i-th input timestamp,
whatever the cache and fetch outcomes. -/
theorem enrich_preserves_length_and_order (fetch : String → Int → Option ℚ) (now : Int)
    (st : String) (ts : List Int) (store : List OutdoorTempRow) (h : ts ≠ []) :
    (getOutdoorTemperatureWithCache fetch now st ts store).1.length = ts.length ∧
    (getOutdoorTemperatureWithCache fetch now st ts store).1.map
      TemperatureData.timestamp = ts :=
  ⟨enrich_length fetch now st ts store h, enrich_map_timestamp fetch now st ts store h⟩

/-- Witness for C1 at a concrete input. -/
theorem enrich_preserves_length_and_order_witness :
    ([0] : List Int) ≠ [] ∧
    ((getOutdoorTemperatureWithCache (fun _ _ => none) 0 "A" [0] []).1.length =
        ([0] : List Int).length ∧
      (getOutdoorTemperatureWithCache (fun _ _ => none) 0 "A" [0] []).1.map
        TemperatureData.timestamp = [0]) :=
  ⟨by decide, enrich_preserves_length_and_order (fun _ _ => none) 0 "A" [0] [] (by decide)⟩

/-! ## Claim C5 — recent-window boundary -/

/-- Claim C5. On a cache miss, a requested timestamp exactly equal to
`now − 2 days` is inside the recent window (it joins the gap list, so a
fetch is attempted for it), while a strictly older timestamp is excluded
from the gap list and its result entry stays `absent`. -/
theorem enrich_recent_window_boundary (fetch : String → Int → Option ℚ) (now : Int)
    (st : String) (ts : List Int) (store : List OutdoorTempRow) (t : Int)
    (hmem : t ∈ ts)
    (hmiss : mapGet (enrichCached st ts store) (hourFloor t) = none) :
    (t = now - twoDaysMs →
      t ∈ enrichMissing (enrichCached st ts store) (now - twoDaysMs) ts) ∧
    (t < now - twoDaysMs →
      t ∉ enrichMissing (enrichCached st ts store) (now - twoDaysMs) ts ∧
      ∀ i : Nat, ts[i]? = some t →
        (getOutdoorTemperatureWithCache fetch now st ts store).1[i]? =
          some (⟨t, none⟩ : TemperatureData)) := by
  constructor
  · intro hbd
    rw [mem_enrichMissing]
    exact ⟨hmem, hmiss, le_of_eq hbd.symm⟩
  · intro hold
    have hnotm : t ∉ enrichMissing (enrichCached st ts store) (now - twoDaysMs) ts := by
      rw [mem_enrichMissing]
      rintro ⟨-, -, hr⟩
      omega
    refine ⟨hnotm, ?_⟩
    intro i hi
    have hne : ts ≠ [] := List.ne_nil_of_mem hmem
    rw [enrich_fst_of_ne_nil fetch now st ts store hne]
    have hentry : (ts.map (enrichProbe (enrichCached st ts store)))[i]? =
        some ⟨t, none⟩ := by
      rw [List.getElem?_map, hi]
      simp [enrichProbe, hmiss]
    by_cases hmse : (enrichMissing (enrichCached st ts store) (now - twoDaysMs) ts).isEmpty
    · rw [if_pos hmse]
      exact hentry
    · rw [if_neg hmse]
      refine mergeFetched_getElem?_preserved _ _ i ⟨t, none⟩ hentry ?_
      intro f hf hts'
      rw [mem_getTemperatureHistory] at hf
      obtain ⟨u, hu, rfl⟩ := hf
      have : u = t := hts'
      subst this
      exact (hnotm hu).elim

/-- Witness for C5: the boundary timestamp `now − 2 days` itself. -/
theorem enrich_recent_window_boundary_witness :
    (0 : Int) ∈ ([0] : List Int) ∧
    mapGet (enrichCached "A" [0] []) (hourFloor 0) = none ∧
    (((0 : Int) = 172800000 - twoDaysMs →
      (0 : Int) ∈ enrichMissing (enrichCached "A" [0] []) (172800000 - twoDaysMs) [0]) ∧
    ((0 : Int) < 172800000 - twoDaysMs →
      (0 : Int) ∉ enrichMissing (enrichCached "A" [0] []) (172800000 - twoDaysMs) [0] ∧
      ∀ i : Nat, ([0] : List Int)[i]? = some 0 →
        (getOutdoorTemperatureWithCache (fun _ _ => some 5) 172800000 "A" [0] []).1[i]? =
          some (⟨0, none⟩ : TemperatureData))) :=
  ⟨by decide, by decide,
    enrich_recent_window_boundary (fun _ _ => some 5) 172800000 "A" [0] [] 0
      (by decide) (by decide)⟩

/-! ## Claim C8 — duplicated requested instants -/

/-- Claim C8. When the same instant occurs twice in the request and misses
the cache inside the recent window, the merge step's exact-timestamp
`findIndex` writes every fetched value onto the first occurrence only: any
later occurrence keeps `absent` even though its hour was fetched
successfully, while the first occurrence receives the fetched value. -/
theorem enrich_duplicate_timestamp_first_only (fetch : String → Int → Option ℚ)
    (now : Int) (st : String) (ts : List Int) (store : List OutdoorTempRow)
    (t : Int) (v : ℚ) (i j : Nat)
    (hi : ts[i]? = some t) (hj : ts[j]? = some t) (hij : i < j)
    (hmiss : mapGet (enrichCached st ts store) (hourFloor t) = none)
    (hrec : now - twoDaysMs ≤ t)
    (hfv : fetch st (hourFloor t) = some v) :
    (getOutdoorTemperatureWithCache fetch now st ts store).1[j]? = some ⟨t, none⟩ ∧
    ∃ i0, i0 ≤ i ∧ ts[i0]? = some t ∧ (∀ i', i' < i0 → ts[i']? ≠ some t) ∧
      (getOutdoorTemperatureWithCache fetch now st ts store).1[i0]? =
        some ⟨t, some v⟩ := by
  have hne : ts ≠ [] := List.ne_nil_of_mem (List.getElem?_mem hi)
  have htm : t ∈ enrichMissing (enrichCached st ts store) (now - twoDaysMs) ts := by
    rw [mem_enrichMissing]
    exact ⟨List.getElem?_mem hi, hmiss, hrec⟩
  have hmse : ¬ (enrichMissing (enrichCached st ts store)
      (now - twoDaysMs) ts).isEmpty = true := by
    rw [List.isEmpty_iff]
    exact List.ne_nil_of_mem htm
  have hentry_i : (ts.map (enrichProbe (enrichCached st ts store)))[i]? =
      some ⟨t, none⟩ := by
    rw [List.getElem?_map, hi]
    simp [enrichProbe, hmiss]
  have hentry_j : (ts.map (enrichProbe (enrichCached st ts store)))[j]? =
      some ⟨t, none⟩ := by
    rw [List.getElem?_map, hj]
    simp [enrichProbe, hmiss]
  obtain ⟨i0, hle, hfi⟩ :=
    findIndex_le_of_pred (fun x => decide (x.timestamp = t)) _ i ⟨t, none⟩ hentry_i
      (by simp)
  have hall : ∀ f ∈ getTemperatureHistory fetch st
      (enrichMissing (enrichCached st ts store) (now - twoDaysMs) ts),
      f.timestamp = t → f.temperature = some v := by
    intro f hf hts'
    rw [mem_getTemperatureHistory] at hf
    obtain ⟨u, hu, rfl⟩ := hf
    have : u = t := hts'
    subst this
    exact hfv
  constructor
  · rw [enrich_fst_of_ne_nil fetch now st ts store hne, if_neg hmse]
    refine mergeFetched_getElem?_preserved _ _ j ⟨t, none⟩ hentry_j ?_
    intro f hf hts'
    change findIndex (fun x : TemperatureData => decide (x.timestamp = t))
      (List.map (enrichProbe (enrichCached st ts store)) ts) ≠ some j
    rw [hfi]
    intro hcon
    have hcj : i0 = j := Option.some_inj.mp hcon
    omega
  · refine ⟨i0, hle, probe_findIndex_getElem? _ ts t i0 hfi,
      probe_findIndex_min _ ts t i0 hfi, ?_⟩
    rw [enrich_fst_of_ne_nil fetch now st ts store hne, if_neg hmse]
    refine mergeFetched_getElem?_first _ _ i0 t (some v) hfi ?_ hall
    refine ⟨⟨t, fetch st (hourFloor t)⟩, ?_, rfl⟩
    rw [mem_getTemperatureHistory]
    exact ⟨t, htm, rfl⟩

/-- Witness for C8: the instant `0` requested twice. -/
theorem enrich_duplicate_timestamp_first_only_witness :
    ([0, 0] : List Int)[0]? = some 0 ∧ ([0, 0] : List Int)[1]? = some 0 ∧ 0 < 1 ∧
    mapGet (enrichCached "A" [0, 0] []) (hourFloor 0) = none ∧
    (172800000 : Int) - twoDaysMs ≤ 0 ∧
    (fun (_ : String) (_ : Int) => some (5 : ℚ)) "A" (hourFloor 0) = some 5 ∧
    ((getOutdoorTemperatureWithCache (fun _ _ => some 5) 172800000 "A" [0, 0] []).1[1]? =
        some (⟨0, none⟩ : TemperatureData) ∧
      ∃ i0, i0 ≤ 0 ∧ ([0, 0] : List Int)[i0]? = some 0 ∧
        (∀ i', i' < i0 → ([0, 0] : List Int)[i']? ≠ some 0) ∧
        (getOutdoorTemperatureWithCache (fun _ _ => some 5) 172800000 "A"
          [0, 0] []).1[i0]? = some (⟨0, some 5⟩ : TemperatureData)) :=
  ⟨by decide, by decide, by decide, by decide, by decide, rfl,
    enrich_duplicate_timestamp_first_only (fun _ _ => some 5) 172800000 "A" [0, 0] []
      0 5 0 1 (by decide) (by decide) (by decide) (by decide) (by decide) rfl⟩

/-! ## Claim C3 — timestamps of persisted rows

The claim says every stored row's timestamp is normalized to the top of the
hour.  In the code, `getTemperatureHistory` rounds only the instant used
for the API request; the row written by `saveOutdoorTemperatureData`
carries the original (un-rounded) requested timestamp.  Normalization
happens at *load* time instead, when the lookup key is computed. -/

/-- Claim C3, counterexample. Requesting the half-hour instant 1800000
(00:30) on an empty store persists a row whose timestamp is the raw
1800000, which differs from its own hour-normalization `0`. -/
theorem stored_row_not_hour_normalized :
    (getOutdoorTemperatureWithCache (fun _ _ => some 5) 172800000 "A" [1800000] []).2 =
      [⟨1800000, "A", 5⟩] ∧ hourFloor 1800000 ≠ 1800000 :=
  ⟨by decide, by decide⟩

/-- Claim C3, amended. Every batch persisted after a gap fetch appends rows
that carry the **original requested timestamp unchanged** (an element of
the input timestamps, not hour-normalized), for the requested station, and
only for hours whose fetch returned a present temperature; hour
normalization is applied when building the fetch request and when keying
the lookup map at load time, not at write time. -/
theorem enrich_persists_raw_timestamps (fetch : String → Int → Option ℚ) (now : Int)
    (st : String) (ts : List Int) (store : List OutdoorTempRow) :
    ∃ batch,
      (getOutdoorTemperatureWithCache fetch now st ts store).2 = store ++ batch ∧
      ∀ row ∈ batch, row.timestamp ∈ ts ∧ row.stationId = st ∧
        fetch st (hourFloor row.timestamp) = some row.temperature := by
  by_cases hne : ts = []
  · subst hne
    refine ⟨[], by simp [getOutdoorTemperatureWithCache], ?_⟩
    intro row hr
    exact absurd hr (List.not_mem_nil row)
  · rw [enrich_snd_of_ne_nil fetch now st ts store hne]
    by_cases hmse : (enrichMissing (enrichCached st ts store) (now - twoDaysMs) ts).isEmpty
    · rw [if_pos hmse]
      refine ⟨[], by simp, ?_⟩
      intro row hr
      exact absurd hr (List.not_mem_nil row)
    · rw [if_neg hmse]
      have hsave : saveOutdoorTemperatureData st
          (getTemperatureHistory fetch st
            (enrichMissing (enrichCached st ts store) (now - twoDaysMs) ts)) store =
          store ++ (getTemperatureHistory fetch st
            (enrichMissing (enrichCached st ts store) (now - twoDaysMs) ts)).filterMap
            (fun item => item.temperature.map
              (fun v => (⟨item.timestamp, st, v⟩ : OutdoorTempRow))) := rfl
      refine ⟨_, hsave, ?_⟩
      intro row hrow
      rw [List.mem_filterMap] at hrow
      obtain ⟨item, hitem, hsome⟩ := hrow
      rw [mem_getTemperatureHistory] at hitem
      obtain ⟨u, hu, rfl⟩ := hitem
      cases hfv : fetch st (hourFloor u) with
      | none =>
        rw [hfv] at hsome
        simp at hsome
      | some v =>
        rw [hfv] at hsome
        simp only [Option.map_some', Option.some_inj] at hsome
        subst hsome
        exact ⟨((mem_enrichMissing _ _ _ _).mp hu).1, rfl, hfv⟩

/-- Witness for C3 (amended) at a concrete input. -/
theorem enrich_persists_raw_timestamps_witness :
    ∃ batch,
      (getOutdoorTemperatureWithCache (fun _ _ => some 5) 172800000 "A" [1800000] []).2 =
        [] ++ batch ∧
      ∀ row ∈ batch, row.timestamp ∈ ([1800000] : List Int) ∧ row.stationId = "A" ∧
        (fun (_ : String) (_ : Int) => some (5 : ℚ)) "A" (hourFloor row.timestamp) =
          some row.temperature :=
  enrich_persists_raw_timestamps (fun _ _ => some 5) 172800000 "A" [1800000] []

/-! ## Claim C7 — nearest-station search -/

theorem atan2_lt_three_halves_pi (y x : ℝ) : atan2 y x < 3 * Real.pi / 2 := by
  unfold atan2
  have hpi := Real.pi_pos
  split_ifs with h1 h2 h3 h4 h5
  · have := Real.arctan_lt_pi_div_two (y / x)
    linarith
  · have := Real.arctan_lt_pi_div_two (y / x)
    linarith
  · have := Real.arctan_lt_pi_div_two (y / x)
    linarith
  · linarith
  · linarith
  · linarith

theorem mul_atan2_lt_max (u v : ℝ) : 6371 * (2 * atan2 u v) < numberMaxValue := by
  have h := atan2_lt_three_halves_pi u v
  have hpi : Real.pi < 3.15 := Real.pi_lt_d2
  have hmax : (63710 : ℝ) < numberMaxValue := by
    unfold numberMaxValue
    have h1 : (1 : ℝ) ≤ 10 ^ 292 := by norm_num
    nlinarith
  nlinarith

theorem calculateDistance_lt_max (lat1 lon1 lat2 lon2 : ℝ) :
    calculateDistance lat1 lon1 lat2 lon2 < numberMaxValue :=
  mul_atan2_lt_max _ _

theorem entryDistance_lt_max (lat lon : ℝ) (p : String × AmedasRawStation) :
    entryDistance lat lon p < numberMaxValue :=
  calculateDistance_lt_max _ _ _ _

/-- Specification of the directory fold: on a non-empty directory it
settles on the first entry attaining the minimum distance. -/
theorem foldl_nearestStep_spec (lat lon : ℝ) (l : List (String × AmedasRawStation))
    (hl : l ≠ []) :
    ∃ (i : Nat) (p : String × AmedasRawStation), l[i]? = some p ∧
      l.foldl (nearestStep lat lon) (numberMaxValue, none) =
        (entryDistance lat lon p, some (entryStation p)) ∧
      (∀ (j : Nat) q, l[j]? = some q → entryDistance lat lon p ≤ entryDistance lat lon q) ∧
      (∀ (j : Nat) q, j < i → l[j]? = some q →
        entryDistance lat lon p < entryDistance lat lon q) := by
  induction l using List.reverseRecOn with
  | nil => exact absurd rfl hl
  | append_singleton l a ih =>
    rw [List.foldl_append]
    by_cases hln : l = []
    · subst hln
      refine ⟨0, a, by simp, ?_, ?_, ?_⟩
      · simp [nearestStep, entryDistance_lt_max lat lon a]
      · intro j q hq
        rw [List.nil_append] at hq
        cases j with
        | zero =>
          simp only [List.getElem?_cons_zero, Option.some_inj] at hq
          subst hq
          exact le_refl _
        | succ n => simp at hq
      · intro j q hj hq
        exact absurd hj (Nat.not_lt_zero j)
    · obtain ⟨i, p, hip, hfold, hmin, hfirst⟩ := ih hln
      rw [hfold]
      have hilen : i < l.length := by
        by_contra hcon
        rw [List.getElem?_eq_none (by omega)] at hip
        cases hip
      by_cases hda : entryDistance lat lon a < entryDistance lat lon p
      · refine ⟨l.length, a, by simp, ?_, ?_, ?_⟩
        · simp [nearestStep, hda]
        · intro j q hq
          rw [List.getElem?_append] at hq
          by_cases hjl : j < l.length
          · rw [if_pos hjl] at hq
            exact le_of_lt (lt_of_lt_of_le hda (hmin j q hq))
          · rw [if_neg hjl] at hq
            have hj : j - l.length = 0 := by
              cases hq0 : ([a] : List (String × AmedasRawStation))[j - l.length]? with
              | none => rw [hq0] at hq; cases hq
              | some q' =>
                have := List.getElem?_mem hq0
                simp at this
                subst this
                cases hjd : j - l.length with
                | zero => rfl
                | succ m => rw [hjd] at hq0; simp at hq0
            rw [hj] at hq
            simp only [List.getElem?_cons_zero, Option.some_inj] at hq
            subst hq
            exact le_refl _
        · intro j q hj hq
          rw [List.getElem?_append, if_pos hj] at hq
          exact lt_of_lt_of_le hda (hmin j q hq)
      · refine ⟨i, p, ?_, ?_, ?_, ?_⟩
        · rw [List.getElem?_append, if_pos hilen]
          exact hip
        · simp [nearestStep, hda]
        · intro j q hq
          rw [List.getElem?_append] at hq
          by_cases hjl : j < l.length
          · rw [if_pos hjl] at hq
            exact hmin j q hq
          · rw [if_neg hjl] at hq
            cases hjd : j - l.length with
            | zero =>
              rw [hjd] at hq
              simp only [List.getElem?_cons_zero, Option.some_inj] at hq
              subst hq
              exact le_of_not_lt hda
            | succ m => rw [hjd] at hq; simp at hq
        · intro j q hj hq
          have hjl : j < l.length := by omega
          rw [List.getElem?_append, if_pos hjl] at hq
          exact hfirst j q hj hq

/-- Claim C7. On a non-empty station directory, `findNearestAmedasStation`
returns the station built from a directory entry whose Haversine distance
(R = 6371 km) to the query point is minimal, and every earlier entry in
iteration order has strictly greater distance (ties are kept by the first
encountered); in particular the search cannot fail on a non-empty
directory, so `NotFoundError` occurs only for an empty one. -/
theorem findNearestAmedasStation_spec (stations : List (String × AmedasRawStation))
    (lat lon : ℝ) (h : stations ≠ []) :
    ∃ (i : Nat) (p : String × AmedasRawStation), stations[i]? = some p ∧
      findNearestAmedasStation stations lat lon = some (entryStation p) ∧
      (∀ (j : Nat) q, stations[j]? = some q →
        entryDistance lat lon p ≤ entryDistance lat lon q) ∧
      (∀ (j : Nat) q, j < i → stations[j]? = some q →
        entryDistance lat lon p < entryDistance lat lon q) := by
  obtain ⟨i, p, hip, hfold, hmin, hfirst⟩ := foldl_nearestStep_spec lat lon stations h
  refine ⟨i, p, hip, ?_, hmin, hfirst⟩
  unfold findNearestAmedasStation
  rw [hfold]

/-- Witness for C7: a singleton directory. -/
theorem findNearestAmedasStation_spec_witness :
    ([("44132", ⟨35, 41.4, 139, 45.6, "東京", 25.2⟩)] :
        List (String × AmedasRawStation)) ≠ [] ∧
    ∃ (i : Nat) (p : String × AmedasRawStation),
      ([("44132", (⟨35, 41.4, 139, 45.6, "東京", 25.2⟩ : AmedasRawStation))] :
          List (String × AmedasRawStation))[i]? = some p ∧
      findNearestAmedasStation [("44132", ⟨35, 41.4, 139, 45.6, "東京", 25.2⟩)]
        35.7 139.76 = some (entryStation p) ∧
      (∀ (j : Nat) q, ([("44132", (⟨35, 41.4, 139, 45.6, "東京", 25.2⟩ : AmedasRawStation))] :
          List (String × AmedasRawStation))[j]? = some q →
        entryDistance 35.7 139.76 p ≤ entryDistance 35.7 139.76 q) ∧
      (∀ (j : Nat) q, j < i →
        ([("44132", (⟨35, 41.4, 139, 45.6, "東京", 25.2⟩ : AmedasRawStation))] :
          List (String × AmedasRawStation))[j]? = some q →
        entryDistance 35.7 139.76 p < entryDistance 35.7 139.76 q) :=
  ⟨by simp,
    findNearestAmedasStation_spec [("44132", ⟨35, 41.4, 139, 45.6, "東京", 25.2⟩)]
      35.7 139.76 (by simp)⟩

/-! ## Claim C2 — idempotence of the enrichment run -/

theorem foldl_min_le_init (l : List Int) (a : Int) : l.foldl min a ≤ a := by
  induction l generalizing a with
  | nil => exact le_refl a
  | cons b l ih => exact le_trans (ih (min a b)) (min_le_left a b)

theorem foldl_min_le_mem (l : List Int) (a x : Int) (hx : x ∈ l) : l.foldl min a ≤ x := by
  induction l generalizing a with
  | nil => cases hx
  | cons b l ih =>
    rcases List.mem_cons.mp hx with rfl | hm
    · exact le_trans (foldl_min_le_init l (min a x)) (min_le_right a x)
    · exact ih (min a b) hm

theorem le_foldl_max_init (l : List Int) (a : Int) : a ≤ l.foldl max a := by
  induction l generalizing a with
  | nil => exact le_refl a
  | cons b l ih => exact le_trans (le_max_left a b) (ih (max a b))

theorem le_foldl_max_mem (l : List Int) (a x : Int) (hx : x ∈ l) : x ≤ l.foldl max a := by
  induction l generalizing a with
  | nil => cases hx
  | cons b l ih =>
    rcases List.mem_cons.mp hx with rfl | hm
    · exact le_trans (le_max_right a x) (le_foldl_max_init l (max a x))
    · exact ih (max a b) hm

theorem listMin_le_of_mem (ts : List Int) (x : Int) (hx : x ∈ ts) : listMin ts ≤ x := by
  cases ts with
  | nil => cases hx
  | cons t0 rest =>
    rcases List.mem_cons.mp hx with rfl | hm
    · exact foldl_min_le_init rest x
    · exact foldl_min_le_mem rest t0 x hm

theorem le_listMax_of_mem (ts : List Int) (x : Int) (hx : x ∈ ts) : x ≤ listMax ts := by
  cases ts with
  | nil => cases hx
  | cons t0 rest =>
    rcases List.mem_cons.mp hx with rfl | hm
    · exact le_foldl_max_init rest x
    · exact le_foldl_max_mem rest t0 x hm

theorem mem_of_getLast?_eq_some {α : Type} {l : List α} {a : α}
    (h : l.getLast? = some a) : a ∈ l := by
  obtain ⟨hne, heq⟩ := List.mem_getLast?_eq_getLast (Option.mem_def.mpr h)
  rw [heq]
  exact List.getLast_mem hne

theorem mem_saveBatch (fetch : String → Int → Option ℚ) (st : String) (ms : List Int)
    (row : OutdoorTempRow) :
    row ∈ saveBatch fetch st ms ↔
      row.timestamp ∈ ms ∧ row.stationId = st ∧
        fetch st (hourFloor row.timestamp) = some row.temperature := by
  unfold saveBatch
  rw [List.mem_filterMap]
  constructor
  · rintro ⟨item, hitem, hsome⟩
    rw [mem_getTemperatureHistory] at hitem
    obtain ⟨u, hu, rfl⟩ := hitem
    cases hfv : fetch st (hourFloor u) with
    | none => rw [hfv] at hsome; simp at hsome
    | some v =>
      rw [hfv] at hsome
      simp only [Option.map_some', Option.some_inj] at hsome
      subst hsome
      exact ⟨hu, rfl, hfv⟩
  · rintro ⟨hms, hst, hf⟩
    obtain ⟨rt, rs, rv⟩ := row
    simp only at hms hst hf
    subst hst
    refine ⟨⟨rt, fetch rs (hourFloor rt)⟩, ?_, ?_⟩
    · rw [mem_getTemperatureHistory]
      exact ⟨rt, hms, rfl⟩
    · rw [hf]
      rfl

theorem mapGet_enrichCached_append (st : String) (ts : List Int)
    (store extra : List OutdoorTempRow) (k : Int) :
    mapGet (enrichCached st ts (store ++ extra)) k =
      (((extra.filter (rowMatches st (listMin ts) (listMax ts) k)).getLast?).map
        OutdoorTempRow.temperature).or (mapGet (enrichCached st ts store) k) := by
  unfold enrichCached loadOutdoorTemperatureData
  rw [List.foldl_append]
  exact mapGet_foldl_loadStep st (listMin ts) (listMax ts) extra _ k

theorem store_after_run (fetch : String → Int → Option ℚ) (now : Int) (st : String)
    (ts : List Int) (store : List OutdoorTempRow) (hne : ts ≠ [])
    (hmse : ¬ (enrichMissing (enrichCached st ts store)
      (now - twoDaysMs) ts).isEmpty = true) :
    (getOutdoorTemperatureWithCache fetch now st ts store).2 =
      store ++ saveBatch fetch st
        (enrichMissing (enrichCached st ts store) (now - twoDaysMs) ts) := by
  rw [enrich_snd_of_ne_nil fetch now st ts store hne, if_neg hmse]
  rfl

/-- Probing the store left by one run, at the hour of a requested
timestamp, returns exactly the value the run itself delivered for that
timestamp (under the boundary-consistency hypothesis `hb`). -/
theorem mapGet_enrichCached_after_run (fetch : String → Int → Option ℚ) (now : Int)
    (st : String) (ts : List Int) (store : List OutdoorTempRow)
    (hb : ∀ t ∈ ts, ∀ t' ∈ ts, hourFloor t = hourFloor t' →
      ((now - twoDaysMs ≤ t) ↔ (now - twoDaysMs ≤ t')))
    (t : Int) (ht : t ∈ ts) (hne : ts ≠ [])
    (hmse : ¬ (enrichMissing (enrichCached st ts store)
      (now - twoDaysMs) ts).isEmpty = true) :
    mapGet (enrichCached st ts (getOutdoorTemperatureWithCache fetch now st ts store).2)
        (hourFloor t) =
      match mapGet (enrichCached st ts store) (hourFloor t) with
      | some v => some v
      | none => if now - twoDaysMs ≤ t then fetch st (hourFloor t) else none := by
  rw [store_after_run fetch now st ts store hne hmse, mapGet_enrichCached_append]
  cases hcv : mapGet (enrichCached st ts store) (hourFloor t) with
  | some v =>
    have hfe : (saveBatch fetch st
          (enrichMissing (enrichCached st ts store) (now - twoDaysMs) ts)).filter
        (rowMatches st (listMin ts) (listMax ts) (hourFloor t)) = [] := by
      rw [List.filter_eq_nil_iff]
      intro row hrow hmatch
      obtain ⟨hms, -, -⟩ := (mem_saveBatch _ _ _ _).mp hrow
      simp only [rowMatches, decide_eq_true_eq] at hmatch
      have hmiss := ((mem_enrichMissing _ _ _ _).mp hms).2.1
      rw [hmatch.2.2.2, hcv] at hmiss
      cases hmiss
    rw [hfe]
    simp
  | none =>
    by_cases hrec : now - twoDaysMs ≤ t
    · cases hfk : fetch st (hourFloor t) with
      | some v =>
        have htm : t ∈ enrichMissing (enrichCached st ts store) (now - twoDaysMs) ts :=
          (mem_enrichMissing _ _ _ _).mpr ⟨ht, hcv, hrec⟩
        have hrow0 : (⟨t, st, v⟩ : OutdoorTempRow) ∈ saveBatch fetch st
            (enrichMissing (enrichCached st ts store) (now - twoDaysMs) ts) := by
          rw [mem_saveBatch]
          exact ⟨htm, rfl, hfk⟩
        have hmatch0 : rowMatches st (listMin ts) (listMax ts) (hourFloor t)
            (⟨t, st, v⟩ : OutdoorTempRow) = true := by
          simp [rowMatches, listMin_le_of_mem ts t ht, le_listMax_of_mem ts t ht]
        cases hgl : ((saveBatch fetch st
            (enrichMissing (enrichCached st ts store) (now - twoDaysMs) ts)).filter
            (rowMatches st (listMin ts) (listMax ts) (hourFloor t))).getLast? with
        | none =>
          have hnil := List.getLast?_eq_none_iff.mp hgl
          have := List.filter_eq_nil_iff.mp hnil _ hrow0
          exact absurd hmatch0 this
        | some r' =>
          have hr'mem := mem_of_getLast?_eq_some hgl
          rw [List.mem_filter] at hr'mem
          obtain ⟨hr'batch, hr'match⟩ := hr'mem
          obtain ⟨-, -, hf'⟩ := (mem_saveBatch _ _ _ _).mp hr'batch
          simp only [rowMatches, decide_eq_true_eq] at hr'match
          rw [hr'match.2.2.2, hfk] at hf'
          have hveq : v = r'.temperature := Option.some_inj.mp hf'
          simp [hrec, hveq]
      | none =>
        have hfe : (saveBatch fetch st
              (enrichMissing (enrichCached st ts store) (now - twoDaysMs) ts)).filter
            (rowMatches st (listMin ts) (listMax ts) (hourFloor t)) = [] := by
          rw [List.filter_eq_nil_iff]
          intro row hrow hmatch
          obtain ⟨-, -, hf⟩ := (mem_saveBatch _ _ _ _).mp hrow
          simp only [rowMatches, decide_eq_true_eq] at hmatch
          rw [hmatch.2.2.2, hfk] at hf
          cases hf
        rw [hfe]
        simp [hrec, hfk, hcv]
    · have hfe : (saveBatch fetch st
            (enrichMissing (enrichCached st ts store) (now - twoDaysMs) ts)).filter
          (rowMatches st (listMin ts) (listMax ts) (hourFloor t)) = [] := by
        rw [List.filter_eq_nil_iff]
        intro row hrow hmatch
        obtain ⟨hms, -, -⟩ := (mem_saveBatch _ _ _ _).mp hrow
        simp only [rowMatches, decide_eq_true_eq] at hmatch
        obtain ⟨hmemts, -, hrec'⟩ := (mem_enrichMissing _ _ _ _).mp hms
        exact hrec ((hb row.timestamp hmemts t ht hmatch.2.2.2).mp hrec')
      rw [hfe]
      simp [hrec, hcv]

/-- Claim C2, counterexample. With the instant `0` requested twice, the first
run gives the fetched value to the first occurrence only (the merge step's
`findIndex`) but persists the hour, so the second run — served entirely
from the cache — fills *both* occurrences: the two output sequences
differ. -/
theorem enrich_not_idempotent_on_duplicates :
    (getOutdoorTemperatureWithCache (fun _ _ => some 5) 172800000 "A" [0, 0]
        (getOutdoorTemperatureWithCache (fun _ _ => some 5) 172800000 "A"
          [0, 0] []).2).1 ≠
      (getOutdoorTemperatureWithCache (fun _ _ => some 5) 172800000 "A" [0, 0] []).1 := by
  decide

/-- Claim C2, amended. For pairwise-distinct requested timestamps such that
two timestamps sharing an hour always fall on the same side of the
recent-window boundary, running the enrichment twice with the same inputs
and the same current time yields identical output sequences; and —
unconditionally on those two hypotheses' content — the second run's gap
list never contains any hour that the first run persisted to the store, so
no fetch is issued for such an hour. -/
theorem enrich_idempotent_nodup (fetch : String → Int → Option ℚ) (now : Int)
    (st : String) (ts : List Int) (store : List OutdoorTempRow)
    (hnd : ts.Nodup)
    (hb : ∀ t ∈ ts, ∀ t' ∈ ts, hourFloor t = hourFloor t' →
      ((now - twoDaysMs ≤ t) ↔ (now - twoDaysMs ≤ t'))) :
    (getOutdoorTemperatureWithCache fetch now st ts
        (getOutdoorTemperatureWithCache fetch now st ts store).2).1 =
      (getOutdoorTemperatureWithCache fetch now st ts store).1 ∧
    ∀ row ∈ (getOutdoorTemperatureWithCache fetch now st ts store).2.drop store.length,
      ∀ u ∈ enrichMissing
          (enrichCached st ts (getOutdoorTemperatureWithCache fetch now st ts store).2)
          (now - twoDaysMs) ts,
        hourFloor u ≠ hourFloor row.timestamp := by
  by_cases hne : ts = []
  · subst hne
    constructor
    · rfl
    · intro row hrow u hu
      have hsnd : (getOutdoorTemperatureWithCache fetch now st [] store).2 = store := rfl
      rw [hsnd, List.drop_length store] at hrow
      exact absurd hrow (List.not_mem_nil row)
  · by_cases hmse : (enrichMissing (enrichCached st ts store)
        (now - twoDaysMs) ts).isEmpty
    · have hst2 : (getOutdoorTemperatureWithCache fetch now st ts store).2 = store := by
        rw [enrich_snd_of_ne_nil fetch now st ts store hne, if_pos hmse]
      constructor
      · rw [hst2]
      · intro row hrow u hu
        rw [hst2, List.drop_length store] at hrow
        exact absurd hrow (List.not_mem_nil row)
    · constructor
      · apply List.ext_getElem?
        intro n
        by_cases hlt : n < ts.length
        · have hts : ts[n]? = some ts[n] := List.getElem?_eq_getElem hlt
          rw [enrich_entry_nodup fetch now st ts _ hnd n ts[n] hts,
            enrich_entry_nodup fetch now st ts store hnd n ts[n] hts,
            mapGet_enrichCached_after_run fetch now st ts store hb ts[n]
              (List.getElem?_mem hts) hne hmse]
          cases hcv : mapGet (enrichCached st ts store) (hourFloor ts[n]) with
          | some v => rfl
          | none =>
            by_cases hrec : now - twoDaysMs ≤ ts[n]
            · cases hfk : fetch st (hourFloor ts[n]) with
              | some v => simp [hrec, hfk]
              | none => simp [hrec, hfk]
            · simp [hrec]
        · rw [List.getElem?_eq_none
              (by rw [enrich_length fetch now st ts _ hne]; omega),
            List.getElem?_eq_none
              (by rw [enrich_length fetch now st ts store hne]; omega)]
      · intro row hrow u hu
        rw [store_after_run fetch now st ts store hne hmse,
          List.drop_left store _] at hrow
        rw [store_after_run fetch now st ts store hne hmse] at hu
        obtain ⟨hms1, hstid, hfrow⟩ := (mem_saveBatch _ _ _ _).mp hrow
        have hmiss2 := ((mem_enrichMissing _ _ _ _).mp hu).2.1
        intro hkeq
        rw [hkeq, mapGet_enrichCached_append] at hmiss2
        have hmemts := ((mem_enrichMissing _ _ _ _).mp hms1).1
        have hmatch : rowMatches st (listMin ts) (listMax ts)
            (hourFloor row.timestamp) row = true := by
          simp [rowMatches, hstid, listMin_le_of_mem ts _ hmemts,
            le_listMax_of_mem ts _ hmemts]
        have hrfmem : row ∈ (saveBatch fetch st
            (enrichMissing (enrichCached st ts store) (now - twoDaysMs) ts)).filter
            (rowMatches st (listMin ts) (listMax ts) (hourFloor row.timestamp)) :=
          List.mem_filter.mpr ⟨hrow, hmatch⟩
        cases hgl : ((saveBatch fetch st
            (enrichMissing (enrichCached st ts store) (now - twoDaysMs) ts)).filter
            (rowMatches st (listMin ts) (listMax ts) (hourFloor row.timestamp))).getLast?
          with
        | none =>
          rw [List.getLast?_eq_none_iff.mp hgl] at hrfmem
          exact absurd hrfmem (List.not_mem_nil row)
        | some r' =>
          rw [hgl] at hmiss2
          simp at hmiss2

/-- Witness for C2 (amended): two distinct recent instants in one hour. -/
theorem enrich_idempotent_nodup_witness :
    ([0, 60000] : List Int).Nodup ∧
    (∀ t ∈ ([0, 60000] : List Int), ∀ t' ∈ ([0, 60000] : List Int),
      hourFloor t = hourFloor t' →
      (((172800000 : Int) - twoDaysMs ≤ t) ↔ ((172800000 : Int) - twoDaysMs ≤ t'))) ∧
    ((getOutdoorTemperatureWithCache (fun _ _ => some 5) 172800000 "A" [0, 60000]
        (getOutdoorTemperatureWithCache (fun _ _ => some 5) 172800000 "A"
          [0, 60000] []).2).1 =
      (getOutdoorTemperatureWithCache (fun _ _ => some 5) 172800000 "A"
        [0, 60000] []).1 ∧
    ∀ row ∈ (getOutdoorTemperatureWithCache (fun _ _ => some 5) 172800000 "A"
        [0, 60000] []).2.drop ([] : List OutdoorTempRow).length,
      ∀ u ∈ enrichMissing
          (enrichCached "A" [0, 60000]
            (getOutdoorTemperatureWithCache (fun _ _ => some 5) 172800000 "A"
              [0, 60000] []).2)
          (172800000 - twoDaysMs) [0, 60000],
        hourFloor u ≠ hourFloor row.timestamp) :=
  ⟨by decide, by decide,
    enrich_idempotent_nodup (fun _ _ => some 5) 172800000 "A" [0, 60000] []
      (by decide) (by decide)⟩

end TempUpdater
